import Mathlib

/-!
Verification of the label-canonicalization program in `src/label.py`.

The development shallowly embeds, from the source:
* the complex/real literal parser (`CC_RE`, `ComplexLiteral.__init__`) and the
  renderer (`ComplexLiteral.__repr__`), with the external `LmfdbRealLiteral`
  modelled per its documented purpose ("prints the same as we got it"): a
  stored decimal string rendered back verbatim, negation flipping the sign of
  the stored string (as Sage's `RealLiteral.__neg__` does);
* the precision heuristic `find_prec`;
* the spectral canonicalization `make_label` (analytic normalization,
  R-to-C fusion, degree assertion, canonical sort, block-factor reduction,
  conjugate-paired tail) over exact complex rationals.  The source writes
  `CDF(elt) + analytic_normalization` although `CDF` is never imported (the
  file is unfinished: it also has a syntax error on the `analytic_conductor`
  line); the embedding performs the evidently intended exact shift;
* `spectral_str` with its assertion modelled as an `Option` failure;
* the field codec `load`/`save` and `process_line`.

Numbers are exact rationals; gamma parameters are pairs of rationals
(real, imaginary part).  Sage's `round()` is round-half-away-from-zero
(`mpfr_round`), modelled by `roundQ`.
-/

/-- Python's whitespace class as used by the `\s` pieces of `CC_RE`. -/
def isPySpace (c : Char) : Bool :=
  c = ' ' || c = '\t' || c = '\n' || c = '\r' || c = '\x0b' || c = '\x0c'

/-- Numeric value of a run of decimal digit characters. -/
def digitsToNat (ds : List Char) : ℕ :=
  ds.foldl (fun n c => 10 * n + (c.toNat - 48)) 0

/-- Optional leading sign: consumes a `+` or `-`, mirroring `[+-]?`. -/
def signOpt (cs : List Char) : List Char × List Char :=
  match cs with
  | c :: t => if c = '+' ∨ c = '-' then ([c], t) else ([], cs)
  | [] => ([], [])

/-- Greedy run of digits, mirroring `\d*` (and `\d+` when nonempty). -/
def spanDigits (cs : List Char) : List Char × List Char :=
  (cs.takeWhile Char.isDigit, cs.dropWhile Char.isDigit)

/-- Greedy run of whitespace, mirroring `\s*`. -/
def spanSpaces (cs : List Char) : List Char × List Char :=
  (cs.takeWhile isPySpace, cs.dropWhile isPySpace)

/-- Value of a decimal literal string (optional sign, integer part, optional
fractional part, optional exponent), the numeric value behind an
`LmfdbRealLiteral`.  Junk past a valid prefix is ignored; the function is only
used on strings produced by the literal grammar. -/
def valS (s : String) : ℚ :=
  let cs := s.toList
  let (sgn, r1) := signOpt cs
  let (ip, r2) := spanDigits r1
  let (fp, r3) :=
    match r2 with
    | '.' :: r => spanDigits r
    | _ => ([], r2)
  let (esgn, edigs) :=
    match r3 with
    | c :: r =>
      if c = 'e' ∨ c = 'E' then
        let (s2, r4) := signOpt r
        (s2, (spanDigits r4).1)
      else ([], [])
    | [] => ([], [])
  let fl := fp.length
  let eAbs := digitsToNat edigs
  let mag : ℕ :=
    (digitsToNat ip * 10 ^ fl + digitsToNat fp) *
      (if esgn = ['-'] then 1 else 10 ^ eAbs)
  let den : ℕ := 10 ^ (fl + (if esgn = ['-'] then eAbs else 0))
  let v : ℚ := mkRat (mag : ℤ) den
  if sgn = ['-'] then -v else v

/-- Negation of a stored literal string: Sage's `RealLiteral.__neg__` strips a
leading `-` or prepends one, keeping the result a literal. -/
def negLit (s : String) : String :=
  if s.startsWith "-" then s.drop 1 else "-" ++ s

/-- Core number token of `CC_RE`: greedy `\d+(\.\d*)?|\.\d+`, returning the
consumed characters and the rest.  Shorter digit runs never need to be tried:
any character they would leave next is a digit or a dot, which every
continuation of the pattern rejects. -/
def numCore (cs : List Char) : Option (List Char × List Char) :=
  match cs with
  | '.' :: rest =>
    let (ds, r) := spanDigits rest
    if ds = [] then none else some ('.' :: ds, r)
  | _ =>
    let (ds, r) := spanDigits cs
    if ds = [] then none
    else
      match r with
      | '.' :: r2 =>
        let (fs, r3) := spanDigits r2
        some (ds ++ '.' :: fs, r3)
      | _ => some (ds, r)

/-- Exponent token `[eE][+-]?\d+` of `CC_RE`. -/
def expPart (cs : List Char) : Option (List Char × List Char) :=
  match cs with
  | c :: rest =>
    if c = 'e' ∨ c = 'E' then
      let (sgn, r1) := signOpt rest
      let (ds, r2) := spanDigits r1
      if ds = [] then none else some (c :: (sgn ++ ds), r2)
    else none
  | [] => none

/-- Negative lookahead `(?![iI.\d])` placed after the real group of `CC_RE`. -/
def lookNotRealish (cs : List Char) : Bool :=
  match cs with
  | [] => true
  | c :: _ => ¬(c = 'i' ∨ c = 'I' ∨ c = '.' ∨ c.isDigit)

/-- Candidates for the optional real group
`([+-]?(?:\d+(?:\.\d*)?|\.\d+)(?:[eE][+-]?\d+)?(?![iI.\d]))?` of `CC_RE`, in
the order a backtracking leftmost-greedy matcher tries them: with the
exponent, without it (the lookahead can reject the longer match, as in
`"2e5i"`), then with the whole group absent. -/
def realGroupCands (cs : List Char) : List (Option (List Char) × List Char) :=
  let (sgn, r1) := signOpt cs
  match numCore r1 with
  | none => [(none, cs)]
  | some (core, r2) =>
    (match expPart r2 with
     | some (e, r3) =>
       if lookNotRealish r3 then [(some (sgn ++ core ++ e), r3)] else []
     | none => []) ++
    (if lookNotRealish r2 then [(some (sgn ++ core), r2)] else []) ++
    [(none, cs)]

/-- Suffix `\s*\*?\s*[iI]` of the imaginary group followed by the end of the
string. -/
def imagTailEnd (cs : List Char) : Bool :=
  let c1 := (spanSpaces cs).2
  let c2 := match c1 with
    | '*' :: r => r
    | _ => c1
  let c3 := (spanSpaces c2).2
  match c3 with
  | [c] => c = 'i' ∨ c = 'I'
  | _ => false

/-- Candidates for the coefficient group `([+-]?\s*(?:(?:\d+(?:\.\d*)?|\.\d+)
(?:[eE][+-]?\d+)?)?)?` inside the imaginary part of `CC_RE`, greedy order:
number with exponent, number without it, no number.  The group is nullable, so
when the imaginary part participates the capture is a string (possibly empty),
never `None` — exactly Python's behaviour, where `"i"` captures `('', )`. -/
def imagCoeffCands (cs : List Char) : List (List Char × List Char) :=
  let (sgn, r1) := signOpt cs
  let (sp, r2) := spanSpaces r1
  let base := sgn ++ sp
  (match numCore r2 with
   | none => []
   | some (core, r3) =>
     (match expPart r3 with
      | some (e, r4) => [(base ++ core ++ e, r4)]
      | none => []) ++
     [(base ++ core, r3)]) ++
  [(base, r2)]

/-- The optional imaginary group of `CC_RE` applied to the remainder after the
real group and the separating `\s*`.  Returns `some none` when the group is
absent (remainder empty, pure real), `some (some b)` with the captured
coefficient when it matches, and `none` when the whole pattern fails. -/
def imagGroup (cs : List Char) : Option (Option (List Char)) :=
  match cs with
  | [] => some none
  | _ =>
    match (imagCoeffCands cs).find? (fun p => imagTailEnd p.2) with
    | some (cap, _) => some (some cap)
    | none => none

/-- The full match of `CC_RE` against a string: `some (a, b)` gives the two
captured groups of a successful match (`a` the real part, `b` the imaginary
coefficient), `none` a failed match.  The leading conjunct models the
lookahead `(?=[iI.\d+-])`. -/
def matchCC (s : String) : Option (Option String × Option String) :=
  match s.toList with
  | [] => none
  | c :: _ =>
    if c = 'i' ∨ c = 'I' ∨ c = '.' ∨ c.isDigit ∨ c = '+' ∨ c = '-' then
      (realGroupCands s.toList).findSome? (fun p =>
        match imagGroup (spanSpaces p.2).2 with
        | some b => some (p.1.map List.asString, b.map List.asString)
        | none => none)
    else none

/-- The result of parsing a literal: the two stored decimal strings (the
`LmfdbRealLiteral`s `_real_literal` and `_imag_literal`) and the chosen bit
precision.  The numeric value of a part is `valS` of its string. -/
structure CL where
  reLit : String
  imLit : String
  prec : ℕ
deriving DecidableEq, Repr

/-- The helper `find_prec` of `ComplexLiteral.__init__` on a string argument:
remove every `-`, truncate at the first lowercase `e`, and take
`ceil(len * 3.322)`, computed exactly as `(3322 * len + 999) / 1000`.
On a missing (`None`) argument the source falls into the exception branch and
returns 53. -/
def findPrecS : Option String → ℕ
  | none => 53
  | some t =>
    let t1 := (t.toList.filter (fun c => c ≠ '-'))
    let t2 := t1.takeWhile (fun c => c ≠ 'e')
    (3322 * t2.length + 999) / 1000

/-- Defaulting of the captured imaginary coefficient: `'-'` means `-1`, `'+'`
or the empty capture means `1` (lines 37-40 of the source). -/
def defaultB : Option String → Option String
  | some "-" => some "-1"
  | some "+" => some "1"
  | some "" => some "1"
  | b => b

/-- The string path of `ComplexLiteral.__init__`: match `CC_RE`, default the
imaginary coefficient, pick the precision `max(find_prec(a), find_prec(b), 53)`
and store both literals.  A group that did not participate is stored as the
zero literal: the external `LmfdbRealLiteral` is modelled from the spec here
(a missing part denotes coefficient 0 for the real part of pure-imaginary
inputs, and imaginary part 0 for pure-real inputs). -/
def parseCL (s : String) : Option CL :=
  match matchCC s with
  | none => none
  | some (a, b0) =>
    let b := defaultB b0
    some ⟨a.getD "0", b.getD "0", max (max (findPrecS a) (findPrecS b)) 53⟩

/-- The renderer `ComplexLiteral.__repr__`: truthiness of a part is its
numeric value being nonzero; a nonzero imaginary part is rendered from its
stored literal followed by `*I`, with the sign split off when a real part was
printed first. -/
def reprCL (cl : CL) : String :=
  let s0 := if valS cl.reLit ≠ 0 then cl.reLit else ""
  let s1 :=
    if valS cl.imLit ≠ 0 then
      (if s0 ≠ "" then
        (if valS cl.imLit < 0 then s0 ++ "-" ++ negLit cl.imLit ++ "*I"
         else s0 ++ "+" ++ cl.imLit ++ "*I")
       else cl.imLit ++ "*I")
    else s0
  if s1 = "" then cl.reLit else s1

/-- Character count used by `find_prec`: every `-` removed, the part truncated
at the first lowercase `e`.  The decimal point and any `+` are counted. -/
def literalCharCount (t : String) : ℕ :=
  ((t.toList.filter (fun c => c ≠ '-')).takeWhile (fun c => c ≠ 'e')).length

/-- The precision `find_prec` assigns to one part, written with an exact
rational ceiling: `ceil(3.322 * charcount)` for a string part, 53 for a
missing part. -/
def precOfPart : Option String → ℕ
  | none => 53
  | some t => (⌈(literalCharCount t : ℚ) * (3322 / 1000)⌉).toNat

/-- Count of significant digits per the specification's wording for precision
selection: digit characters of the part, ignoring the sign characters (which
are not digits) and any exponent suffix. -/
def sigDigits (s : String) : ℕ :=
  ((s.toList.takeWhile (fun c => c ≠ 'e' ∧ c ≠ 'E')).filter Char.isDigit).length

/-- A gamma parameter: an exact complex number as (real part, imaginary part). -/
abbrev Qc := ℚ × ℚ

/-- Complex conjugation on gamma parameters. -/
def conjQ (z : Qc) : Qc := (z.1, -z.2)

/-- The key `0` of the fusion loop (`LmfdbRealLiteral(RR, '0')`, compared with
the complex parameters by value). -/
def czero : Qc := (0, 0)

/-- The key `1` of the fusion loop. -/
def cone : Qc := (1, 0)

/-- The R-to-C fusion loop of `make_label` (source lines 179-182), taken
literally on the two counters: while the real counter holds both a 0 and a 1,
remove one of each and add one 0 to the complex counter. -/
def fuseLoop (grc gcc : Qc → ℕ) : (Qc → ℕ) × (Qc → ℕ) :=
  if h : 0 < grc czero ∧ 0 < grc cone then
    fuseLoop
      (Function.update (Function.update grc czero (grc czero - 1)) cone (grc cone - 1))
      (Function.update gcc czero (gcc czero + 1))
  else (grc, gcc)
termination_by grc czero
decreasing_by
  have hne : czero ≠ cone := by decide
  rw [Function.update_noteq hne, Function.update_same]
  omega

/-- Remove the first `k` occurrences of `x` from a list: the list-level
realization of decrementing a counter key by `k`. -/
def removeOcc (x : Qc) : ℕ → List Qc → List Qc
  | _, [] => []
  | 0, l => l
  | k + 1, y :: t => if y = x then removeOcc x k t else y :: removeOcc x (k + 1) t

/-- Number of pairs the fusion loop consumes: it runs until one of the two
counter keys reaches zero. -/
def fuseCount (GR : List Qc) : ℕ := min (GR.count czero) (GR.count cone)

/-- The real parameters rebuilt after fusion (source line 183).  The source
rebuilds from `GRcount.items()` (Python dict order) and sorts immediately
after, so any multiset-faithful rebuild is equivalent; `fuseLoop_count_fuseGR`
below proves this list realizes exactly the loop's final counter. -/
def fuseGR (GR : List Qc) : List Qc :=
  removeOcc cone (fuseCount GR) (removeOcc czero (fuseCount GR) GR)

/-- The complex parameters rebuilt after fusion (source line 184). -/
def fuseGC (GR GC : List Qc) : List Qc :=
  GC ++ List.replicate (fuseCount GR) czero

/-- Absolute value written with an explicit comparison. -/
def qabs (q : ℚ) : ℚ := if q < 0 then -q else q

/-- Lexicographic comparison by the sort key `CCtuple z = (z.real, |z.imag|,
z.imag)`. -/
def ccKeyLe (a b : Qc) : Bool :=
  decide (a.1 < b.1 ∨ (a.1 = b.1 ∧
    (qabs a.2 < qabs b.2 ∨ (qabs a.2 = qabs b.2 ∧ a.2 ≤ b.2))))

/-- The order relation behind `ccKeyLe`. -/
def ccLe (a b : Qc) : Prop := ccKeyLe a b = true

instance : DecidableRel ccLe := fun a b => inferInstanceAs (Decidable (ccKeyLe a b = true))

/-- The canonical sort `G.sort(key=CCtuple)` (source lines 186-187).  The key
is injective, so ties are identical elements and any stable comparison sort
produces the same list. -/
def sortG (G : List Qc) : List Qc := List.insertionSort ccLe G

/-- Sage's `round()` (`mpfr_round`): nearest integer, ties away from zero. -/
def roundQ (q : ℚ) : ℤ :=
  if 0 ≤ q then (q + mkRat 1 2).floor else -((-q + mkRat 1 2).floor)

/-- Python's `"%.2f" % x` on a nonnegative rational: the value rounded to two
decimals, printed with exactly two digits after the point.  (No claim
exercises an exact tie at the third decimal, where C printf's behaviour on
the binary double would matter.) -/
def fmt2 (x : ℚ) : String :=
  let n : ℕ := (100 * x + mkRat 1 2).floor.toNat
  toString (n / 100) ++ "." ++ (if n % 100 < 10 then "0" else "") ++ toString (n % 100)

/-- The function `spectral_str` (source lines 98-112); its assertion
`conjugate → x ≤ 0` is modelled by returning `none`. -/
def spectralStr (x : ℚ) (conjugate : Bool) : Option String :=
  let tok : ℚ → String := fun y => if y = 0 then "0" else fmt2 y
  if conjugate then
    if x ≤ 0 then some ("c" ++ tok (-x)) else none
  else if x < 0 then some ("m" ++ tok (-x))
  else some ("p" ++ tok x)

/-- The three possible outcomes of one step of the tail loop. -/
inductive TailAct
  | conjTok
  | skipTok
  | plainTok
deriving DecidableEq, Repr

/-- The decision the tail loop of `make_label` (source lines 213-221) takes at
index `i` of a list `G`: emit a conjugate token, skip the element (it was
already listed through its pair-mate), or emit a plain token. -/
def tailAct (G : List Qc) (i : ℕ) : TailAct :=
  if (G.getD i czero).2 ≤ 0 ∧ i + 1 < G.length ∧
      conjQ (G.getD i czero) = G.getD (i + 1) czero then .conjTok
  else if 0 ≤ (G.getD i czero).2 ∧ 0 < i ∧
      conjQ (G.getD i czero) = G.getD (i - 1) czero then .skipTok
  else .plainTok

/-- The spectral tokens the tail emits for one list, skipped indices omitted. -/
def tailTokens (G : List Qc) : List String :=
  (List.range G.length).filterMap (fun i =>
    match tailAct G i with
    | .skipTok => none
    | .conjTok => spectralStr (G.getD i czero).2 true
    | .plainTok => spectralStr (G.getD i czero).2 false)

/-- The tail string contributed by one list; `none` when the `spectral_str`
assertion would fail. -/
def tailStrG (G : List Qc) : Option String :=
  (List.range G.length).foldl (fun acc i =>
    acc.bind (fun s =>
      match tailAct G i with
      | .skipTok => some s
      | .conjTok => (spectralStr (G.getD i czero).2 true).map (fun t => s ++ t)
      | .plainTok => (spectralStr (G.getD i czero).2 false).map (fun t => s ++ t)))
    (some "")

/-- Number of indices the tail loop skips in one list. -/
def skippedCount (G : List Qc) : ℕ :=
  ((List.range G.length).filter (fun i => tailAct G i == TailAct.skipTok)).length

/-- Multiplicities of the distinct values of a list (`Counter(l).values()`). -/
def countsOf (l : List ℚ) : List ℕ := l.dedup.map (fun k => l.count k)

/-- Sage's `GCD` of a list of naturals (0 on the empty list). -/
def gcdList (ns : List ℕ) : ℕ := ns.foldr Nat.gcd 0

/-- The block factor `ge = GCD(GCD(GR multiplicities), GCD(GC
multiplicities))` (source line 199). -/
def geOf (l1 l2 : List ℚ) : ℕ := Nat.gcd (gcdList (countsOf l1)) (gcdList (countsOf l2))

/-- The reduced real-part list: `count / ge` copies of each distinct value
(source lines 201-202; the source iterates the counter in dict order and the
result is only used for the label string). -/
def reduceBy (g : ℕ) (l : List ℚ) : List ℚ :=
  l.dedup.bind (fun k => List.replicate (l.count k / g) k)

/-- Sage's `Integer.perfect_power()`: the pair `(b, e)` with `n = b^e` and `e`
maximal (`(n, 1)` when `n` is no proper power). -/
def perfectPower (n : ℕ) : ℕ × ℕ :=
  if n ≤ 1 then (n, 1)
  else
    match (List.range (n + 1)).reverse.findSome? (fun e =>
      if e = 0 then none
      else ((List.range (n + 1)).find? (fun b => b ^ e = n)).map (fun b => (b, e))) with
    | some p => p
    | none => (n, 1)

/-- The conductor segment of the label (source lines 167-171). -/
def condSeg (n : ℕ) : String :=
  let p := perfectPower n
  if p.2 = 1 then toString p.1 else toString p.1 ++ "e" ++ toString p.2

/-- The invariants `make_label` consumes: degree, conductor, primitivized
central character, motivic weight, algebraicity and the two gamma lists. -/
structure LRecord where
  degree : ℤ
  conductor : ℕ
  centralChar : String
  motivicWeight : ℤ
  algebraic : Bool
  GR : List Qc
  GC : List Qc
deriving DecidableEq, Repr

/-- What `make_label` adds to the record: the prelabel and the four derived
numeric arrays. -/
structure LabelData where
  prelabel : String
  muReal : List ℤ
  muImag : List ℚ
  doubleNuReal : List ℤ
  doubleNuImag : List ℚ
deriving DecidableEq, Repr

/-- The fatal conditions inside `make_label`: the degree assertion (line 185)
and the assertion inside `spectral_str` (line 100). -/
inductive LabelError
  | invariantViolation
  | assertFailed
deriving DecidableEq, Repr

/-- Analytic normalization (source lines 164-166): shift every parameter by
`motivic_weight / 2`.  The source's `CDF(elt)` cast is a slip (`CDF` is never
imported); the shift itself is modelled exactly, as the spec prescribes. -/
def normalizeG (w : ℤ) (G : List Qc) : List Qc :=
  G.map (fun z => (z.1 + (w : ℚ) / 2, z.2))

/-- The function `make_label` (source lines 162-222): normalization, fusion,
degree assertion, canonical sort, derived arrays, block-factor reduction and
the assembled prelabel. -/
def makeLabel (L : LRecord) : Except LabelError LabelData :=
  let GR1 := normalizeG L.motivicWeight L.GR
  let GC1 := normalizeG L.motivicWeight L.GC
  let GR2 := fuseGR GR1
  let GC2 := fuseGC GR1 GC1
  if L.degree ≠ (GR2.length : ℤ) + 2 * (GC2.length : ℤ) then .error .invariantViolation
  else
    let GR3 := sortG GR2
    let GC3 := sortG GC2
    let GRreal := GR3.map (fun z => z.1)
    let GCreal := GC3.map (fun z => z.1)
    let ge := geOf GRreal GCreal
    let GRr := if 1 < ge then reduceBy ge GRreal else GRreal
    let GCr := if 1 < ge then reduceBy ge GCreal else GCreal
    let rs := String.join (GRr.map (fun x => "r" ++ toString (roundQ x)))
    let cs := String.join (GCr.map (fun x => "c" ++ toString (roundQ (2 * x))))
    let gammas := "-" ++ rs ++ cs ++ (if 1 < ge then "e" ++ toString ge else "")
    let beginning := toString L.degree ++ "-" ++ condSeg L.conductor ++ "-" ++ L.centralChar
    let arrays : List ℤ × List ℚ × List ℤ × List ℚ :=
      (GRreal.map roundQ, GR3.map (fun z => z.2),
       GCreal.map (fun x => roundQ (2 * x)), GC3.map (fun z => 2 * z.2))
    if L.algebraic then
      .ok ⟨beginning ++ gammas ++ "-0", arrays.1, arrays.2.1, arrays.2.2.1, arrays.2.2.2⟩
    else
      match tailStrG GR3, tailStrG GC3 with
      | some t1, some t2 =>
        .ok ⟨beginning ++ gammas ++ "-" ++ t1 ++ t2,
             arrays.1, arrays.2.1, arrays.2.2.1, arrays.2.2.2⟩
      | _, _ => .error .assertFailed

deriving instance DecidableEq for Except

/-- The `load` branch for `bigint`/`smallint` fields (`ZZ(x)`): an optional
sign followed by digits. -/
def parseIntS (s : String) : Option ℤ :=
  match s.toList with
  | [] => none
  | cs =>
    let (sgn, r1) := signOpt cs
    let (ds, r2) := spanDigits r1
    if ds = [] ∨ r2 ≠ [] then none
    else some (if sgn = ['-'] then -(digitsToNat ds : ℤ) else (digitsToNat ds : ℤ))

/-- The `load` branch for the conductor (`ZZ(x)`, a positive integer per the
data model and the spec's glossary). -/
def parseNatS (s : String) : Option ℕ :=
  match s.toList with
  | [] => none
  | cs =>
    let (ds, r2) := spanDigits cs
    if ds = [] ∨ r2 ≠ [] then none else some (digitsToNat ds)

/-- The `load` branch for `double precision` fields and `z1`
(`LmfdbRealLiteral(RR, x)`): accept a real decimal literal and store the
original string, so it re-renders verbatim. -/
def parseRealLit (s : String) : Option String :=
  let cs := s.toList
  let (_, r1) := signOpt cs
  match numCore r1 with
  | none => none
  | some (_, r2) =>
    match expPart r2 with
    | some (_, r3) => if r3 = [] then some s else none
    | none => if r2 = [] then some s else none

/-- Removal of every space character, `x.replace(" ", "")`. -/
def stripSpacesStr (s : String) : String :=
  String.mk (s.toList.filter (fun c => c ≠ ' '))

/-- The gamma-factors splitter of `load` (source line 127), exactly as
written: `x[1:-1].replace(" ","").split("],[")`.  Note the subsequent
`piece[1:-1]` strips a character from both ends of every piece, so the split
is lossy — see the C5 analysis. -/
def gammaPieces (x : String) : List String :=
  (stripSpacesStr ((x.drop 1).dropRight 1)).splitOn "],["

/-- The `load` branch for `gamma_factors` (source line 127; the file's
`CompexLiteral` is read as the evidently intended `ComplexLiteral`):
each piece is stripped of its first and last character, split on commas, and
parsed as complex literals. -/
def loadGamma (x : String) : Option (List (List CL)) :=
  (gammaPieces x).mapM (fun piece =>
    (((piece.drop 1).dropRight 1).splitOn ",").mapM parseCL)

/-- The numeric value of a parsed literal as an exact complex number. -/
def toQc (cl : CL) : Qc := (valS cl.reLit, valS cl.imLit)

/-- Modelled from the spec: the external `primitivize`
(CentralCharacterReducer, `dirichlet_conrey`) reduces a Conrey label
`"modulus.number"` to the label of its primitive inducing character;
deterministic, with the output modulus dividing the input modulus.  The model
is exact on the labels this development exercises: the principal character
`m.1` is induced by the trivial character `1.1`; other labels are treated as
already primitive. -/
def primitivizeM (label : String) : String :=
  match label.splitOn "." with
  | [_, n] => if n = "1" then "1.1" else label
  | _ => label

/-- The decoded input record of `process_line`: the fifteen typed fields in
order. -/
structure PRec where
  idv : ℤ
  origin : String
  primFlag : Bool
  conductor : ℕ
  centralChar : String
  selfDual : Bool
  motivicWeight : ℤ
  lhash : String
  degree : ℤ
  orderOfVanishing : ℤ
  algebraic : Bool
  z1 : String
  gammaF : List (List CL)
  traceHash : ℤ
  rootAngle : String
deriving DecidableEq, Repr

/-- The decode half of `process_line`: `load` applied to the fifteen fields
per the `HEADER`/`TYPES` tables (booleans are `"t"`-tests, `bigint`/`smallint`
fields integers, `conductor` a positive integer, `z1`/`root_angle` stored real
literals, `gamma_factors` the nested literal lists). -/
def loadRec (f0 f1 f2 f3 f4 f5 f6 f7 f8 f9 f10 f11 f12 f13 f14 : String) :
    Option PRec :=
  (parseIntS f0).bind fun idv =>
  (parseNatS f3).bind fun conductor =>
  (parseIntS f6).bind fun motivicWeight =>
  (parseIntS f8).bind fun degree =>
  (parseIntS f9).bind fun oov =>
  (parseRealLit f11).bind fun z1 =>
  (loadGamma f12).bind fun gammaF =>
  (parseIntS f13).bind fun traceHash =>
  (parseRealLit f14).bind fun rootAngle =>
  some ⟨idv, f1, f2 == "t", conductor, f4, f5 == "t", motivicWeight, f7, degree,
    oov, f10 == "t", z1, gammaF, traceHash, rootAngle⟩

/-- The record-level middle of `process_line`: primitivize the central
character, unpack `GR, GC = L['gamma_factors']` (exactly two lists), and run
`make_label`. -/
def processCore (r : PRec) : Option (PRec × LabelData) :=
  match r.gammaF with
  | [grl, gcl] =>
    match makeLabel ⟨r.degree, r.conductor, primitivizeM r.centralChar,
        r.motivicWeight, r.algebraic, grl.map toQc, gcl.map toQc⟩ with
    | .ok d => some ({ r with centralChar := primitivizeM r.centralChar }, d)
    | .error _ => none
  | _ => none

/-- The `save` branch for booleans. -/
def saveBool (b : Bool) : String := if b then "t" else "f"

/-- The gamma-factors output field: `repr(x).replace(" ","")` — Python's
nested-list repr over `ComplexLiteral.__repr__`, spaces removed. -/
def renderGamma (g : List (List CL)) : String :=
  stripSpacesStr ("[" ++ String.intercalate ", " (g.map (fun piece =>
    "[" ++ String.intercalate ", " (piece.map reprCL) ++ "]")) ++ "]")

/-- Rendering of a derived rational array entry (`str` applied to the numeric
entries of the mu/nu arrays); no claim constrains these digits. -/
def renderQ (q : ℚ) : String :=
  if q.den = 1 then toString q.num else toString q.num ++ "/" ++ toString q.den

/-- The `save` branch for `smallint[]` arrays: braces around comma-joined
entries. -/
def renderZList (l : List ℤ) : String :=
  "\x7b" ++ String.intercalate "," (l.map (fun z => toString z)) ++ "\x7d"

/-- The `save` path for `mu_imag`/`double_nu_imag`: `str(x)` on a Python list
(square brackets, comma-space separators). -/
def renderQListPy (l : List ℚ) : String :=
  "[" ++ String.intercalate ", " (l.map renderQ) ++ "]"

/-- The `save` branch for `bigint[]` arrays. -/
def renderNatList (l : List ℕ) : String :=
  "\x7b" ++ String.intercalate "," (l.map (fun n => toString n)) ++ "\x7d"

/-- Modelled from the spec: the analytic-conductor computation is visibly
unfinished in the source (the call site `analytic_conductor(L[)` is a syntax
slip and the function body is absent); the spec treats it as an external pure
numeric function and prescribes no formula, and no claim constrains its value,
so the model renders a fixed literal. -/
def analyticConductorM (_r : PRec) : String := "0"

/-- Modelled from the spec: `bad_primes (bigint[])` is listed among the output
fields but the source never assigns it (`L["bad_primes"]` would raise a
`KeyError`); modelled as the primes dividing the conductor — the standard
meaning of bad primes — rendered through the `bigint[]` branch of `save`. -/
def badPrimesM (n : ℕ) : List ℕ :=
  (List.range (n + 1)).filter (fun p => decide (Nat.Prime p) && decide (p ∣ n))

/-- The source's `save` on a `double precision` field (`root_angle`,
`analytic_conductor`): no branch of the dispatch matches, so it raises
`RuntimeError((x, H, T))` — the spec's `UnsupportedFieldType`. -/
def saveDoubleSrc (_x : String) : Option String := none

/-- Modelled from the spec: the intended `save` for `double precision` fields.
The spec says encoding rules mirror the input rules and literals re-render
their original text, so the stored literal string is emitted. -/
def saveDoubleFixed (x : String) : Option String := some x

/-- The encode half of `process_line`: the 22 output fields of `OUTHEADER` in
order, parameterized by the double-precision branch of `save` (missing in the
source, spec-modelled in the fixed variant). -/
def saveLineWith (saveDouble : String → Option String) (r : PRec) (d : LabelData) :
    Option (List String) :=
  (saveDouble r.rootAngle).bind fun ra =>
  (saveDouble (analyticConductorM r)).bind fun ac =>
  some [toString r.idv, r.origin, saveBool r.primFlag, toString r.conductor,
    r.centralChar, saveBool r.selfDual, toString r.motivicWeight, r.lhash,
    toString r.degree, toString r.orderOfVanishing, saveBool r.algebraic,
    r.z1, renderGamma r.gammaF, toString r.traceHash, ra,
    d.prelabel, ac,
    renderZList d.muReal, renderQListPy d.muImag,
    renderZList d.doubleNuReal, renderQListPy d.doubleNuImag,
    renderNatList (badPrimesM r.conductor)]

/-- The function `process_line` exactly as the source stands: decode,
primitivize, `make_label`, re-encode.  The re-encode aborts on every record
because `save` has no double-precision branch for `root_angle`. -/
def processLine (f0 f1 f2 f3 f4 f5 f6 f7 f8 f9 f10 f11 f12 f13 f14 : String) :
    Option (List String) :=
  (loadRec f0 f1 f2 f3 f4 f5 f6 f7 f8 f9 f10 f11 f12 f13 f14).bind fun r =>
  (processCore r).bind fun p =>
  saveLineWith saveDoubleSrc p.1 p.2

/-- `process_line` with the double-precision `save` branch supplied
(spec-modelled): the variant under which records can be emitted at all. -/
def processLineFixed (f0 f1 f2 f3 f4 f5 f6 f7 f8 f9 f10 f11 f12 f13 f14 : String) :
    Option (List String) :=
  (loadRec f0 f1 f2 f3 f4 f5 f6 f7 f8 f9 f10 f11 f12 f13 f14).bind fun r =>
  (processCore r).bind fun p =>
  saveLineWith saveDoubleFixed p.1 p.2

/-! ## Theorems -/

example : matchCC "0" = some (some "0", none) := by decide
example : matchCC "i" = some (none, some "") := by decide
example : matchCC "-i" = some (none, some "-") := by decide
example : matchCC "2.5-3.1i" = some (some "2.5", some "-3.1") := by decide
example : matchCC "2e5i" = some (none, some "2e5") := by decide
example : matchCC "" = none := by decide
example : matchCC "x" = none := by decide
example : (parseCL "2.5-3.1i").map reprCL = some "2.5-3.1*I" := by with_unfolding_all decide
example : (parseCL "i").map reprCL = some "1*I" := by with_unfolding_all decide
example : (parseCL "0").map reprCL = some "0" := by with_unfolding_all decide

lemma valS_zero : valS "0" = 0 := by with_unfolding_all decide

/-- Ceiling of a rational `m / 1000` agrees with the rounded-up natural
division the source computes. -/
lemma ceil_thousandth (m : ℕ) : ⌈(m : ℚ) / 1000⌉ = (((m + 999) / 1000 : ℕ) : ℤ) := by
  have h1 : ((((m + 999) / 1000 : ℕ) : ℤ) - 1) * 1000 < m := by
    have := Nat.div_add_mod (m + 999) 1000
    have := Nat.mod_lt (m + 999) (show 0 < 1000 by norm_num)
    omega
  have h2 : (m : ℚ) ≤ (((m + 999) / 1000 : ℕ) : ℚ) * 1000 := by
    have h3 : (m : ℤ) ≤ (((m + 999) / 1000 : ℕ) : ℤ) * 1000 := by
      have := Nat.div_add_mod (m + 999) 1000
      omega
    exact_mod_cast h3
  rw [Int.ceil_eq_iff]
  refine ⟨?_, ?_⟩
  · rw [lt_div_iff (by norm_num : (0 : ℚ) < 1000)]
    exact_mod_cast h1
  · rw [div_le_iff (by norm_num : (0 : ℚ) < 1000)]
    exact_mod_cast h2

/-- The source's natural-number formula for `find_prec` equals the exact
ceiling formula `ceil(3.322 * charcount)`. -/
lemma findPrecS_eq_precOfPart (x : Option String) : findPrecS x = precOfPart x := by
  cases x with
  | none => rfl
  | some t =>
    show (3322 * literalCharCount t + 999) / 1000 = _
    simp only [precOfPart]
    rw [show ((literalCharCount t : ℚ) * (3322 / 1000)) =
          ((3322 * literalCharCount t : ℕ) : ℚ) / 1000 by push_cast; ring]
    rw [ceil_thousandth (3322 * literalCharCount t)]
    omega

/-- Claim C1 (counterexample): the round trip `render(parse(s)) == s` fails
character-for-character on the accepted literal `"2.5-3.1i"` — the renderer
re-renders it as `"2.5-3.1*I"`, since `ComplexLiteral.__repr__` always writes
the imaginary part with the `*I` suffix. -/
theorem claim_C1_counterexample :
    (parseCL "2.5-3.1i").map reprCL = some "2.5-3.1*I" ∧
    (parseCL "2.5-3.1i").map reprCL ≠ some "2.5-3.1i" := by
  refine ⟨?_, ?_⟩ <;> with_unfolding_all decide

/-- Claim C1 (amended): rendering the parsed literal reproduces the input
exactly for every accepted string that matches as a pure real literal (the
whole string is the captured real group and the imaginary group is absent) —
for example `"0"` or `"2.5"`.  Complex forms are re-rendered in the `*I`
convention instead, as the counterexample shows. -/
theorem claim_C1 (s : String) (h : matchCC s = some (some s, none)) :
    (parseCL s).map reprCL = some s := by
  unfold parseCL
  rw [h]
  have hz : valS "0" = 0 := valS_zero
  by_cases hv : valS s = 0 <;>
    by_cases hs : s = "" <;>
      simp [reprCL, defaultB, hz, hv, hs]

/-- Witness for C1 at the concrete accepted literal `"0"`. -/
theorem claim_C1_witness :
    matchCC "0" = some (some "0", none) ∧ (parseCL "0").map reprCL = some "0" :=
  ⟨by decide, claim_C1 "0" (by decide)⟩

/-- Claim C6 (counterexample): on the accepted literal
`"1.234567890123456"` (16 significant digits plus a decimal point) the code
chooses 57 bits — `ceil(17 * 3.322)`, counting the decimal point as a
character — while the claimed formula `max(ceil(digits * log2 10), 53)` gives
at most 54 bits, so the two disagree. -/
theorem claim_C6_counterexample :
    (parseCL "1.234567890123456").map CL.prec = some 57 ∧
    max ⌈(sigDigits "1.234567890123456" : ℝ) * Real.logb 2 10⌉ 53 < 57 := by
  refine ⟨by decide, ?_⟩
  have hsig : sigDigits "1.234567890123456" = 16 := by decide
  rw [hsig]
  push_cast
  have hle : (16 : ℝ) * Real.logb 2 10 ≤ 54 := by
    rw [show (16 : ℝ) * Real.logb 2 10 = Real.logb 2 ((10 : ℝ) ^ (16 : ℕ)) by
      rw [Real.logb_pow]; norm_num]
    rw [show (54 : ℝ) = ((54 : ℕ) : ℝ) by norm_num]
    rw [Real.logb_le_iff_le_rpow (by norm_num) (by positivity)]
    rw [Real.rpow_natCast]
    norm_num
  have : ⌈(16 : ℝ) * Real.logb 2 10⌉ ≤ 54 := Int.ceil_le.mpr hle
  omega

/-- Claim C6 (amended): the working precision of a parsed literal is
`max(53, ceil(3.322 * c_re), ceil(3.322 * c_im))` where the count `c` of a
part is its number of characters after deleting every `-` and truncating at
the first lowercase `e` — so the decimal point and any `+` are counted, a
missing part contributes 53, and the imaginary coefficient is counted after
defaulting (`""`/`"+"` to `"1"`, `"-"` to `"-1"`). -/
theorem claim_C6 (s : String) (a b : Option String)
    (h : matchCC s = some (a, b)) :
    (parseCL s).map CL.prec =
      some (max (max (precOfPart a) (precOfPart (defaultB b))) 53) := by
  unfold parseCL
  rw [h]
  simp [findPrecS_eq_precOfPart]

/-- Witness for C6: the amended precision formula evaluated on the accepted
literal `"2.5"`. -/
theorem claim_C6_witness :
    (parseCL "2.5").map CL.prec =
      some (max (max (precOfPart (some "2.5")) (precOfPart (defaultB none))) 53) :=
  claim_C6 "2.5" (some "2.5") none (by decide)

lemma czero_ne_cone : czero ≠ cone := by decide

/-- Closed form of the fusion loop: with `k = min(count of 0, count of 1)`,
the loop removes `k` from both real keys and adds `k` to the complex 0 key. -/
lemma fuseLoop_spec : ∀ (n : ℕ) (grc gcc : Qc → ℕ), grc czero = n →
    fuseLoop grc gcc =
      (Function.update (Function.update grc czero
          (grc czero - min (grc czero) (grc cone)))
         cone (grc cone - min (grc czero) (grc cone)),
       Function.update gcc czero (gcc czero + min (grc czero) (grc cone))) := by
  intro n
  induction n with
  | zero =>
    intro grc gcc h0
    rw [fuseLoop]
    have hc : ¬(0 < grc czero ∧ 0 < grc cone) := by omega
    rw [dif_neg hc]
    have h1 : min (grc czero) (grc cone) = 0 := by omega
    rw [h1]
    simp [Function.update_eq_self]
  | succ m ih =>
    intro grc gcc h0
    by_cases hc : 0 < grc cone
    · rw [fuseLoop, dif_pos ⟨by omega, hc⟩]
      rw [ih (Function.update (Function.update grc czero (grc czero - 1)) cone
            (grc cone - 1)) (Function.update gcc czero (gcc czero + 1))
          (by rw [Function.update_noteq czero_ne_cone, Function.update_same]; omega)]
      rw [Prod.mk.injEq]
      constructor
      · funext x
        rcases eq_or_ne x czero with hxz | hxz
        · subst hxz
          simp only [Function.update_apply, eq_self_iff_true, if_true,
            czero_ne_cone, Ne.symm czero_ne_cone, if_false]
          omega
        · rcases eq_or_ne x cone with hxc | hxc
          · subst hxc
            simp only [Function.update_apply, eq_self_iff_true, if_true,
              czero_ne_cone, Ne.symm czero_ne_cone, if_false]
            omega
          · simp only [Function.update_apply, eq_self_iff_true, if_true,
              czero_ne_cone, Ne.symm czero_ne_cone, if_false, hxz, hxc]
      · funext x
        rcases eq_or_ne x czero with hxz | hxz
        · subst hxz
          simp only [Function.update_apply, eq_self_iff_true, if_true,
            czero_ne_cone, Ne.symm czero_ne_cone, if_false]
          omega
        · simp only [Function.update_apply, eq_self_iff_true, if_true,
            czero_ne_cone, Ne.symm czero_ne_cone, if_false, hxz]
    · rw [fuseLoop]
      have hcc : ¬(0 < grc czero ∧ 0 < grc cone) := by omega
      rw [dif_neg hcc]
      have h1 : min (grc czero) (grc cone) = 0 := by omega
      rw [h1]
      simp [Function.update_eq_self]

/-- The closed form, stated without the auxiliary induction variable. -/
lemma fuseLoop_eq (grc gcc : Qc → ℕ) :
    fuseLoop grc gcc =
      (Function.update (Function.update grc czero
          (grc czero - min (grc czero) (grc cone)))
         cone (grc cone - min (grc czero) (grc cone)),
       Function.update gcc czero (gcc czero + min (grc czero) (grc cone))) :=
  fuseLoop_spec (grc czero) grc gcc rfl

/-- Claim C3: with `k = min(number of 0-valued, number of 1-valued real
parameters)`, the fusion loop removes exactly `k` zeros and `k` ones from the
real counter and adds exactly `k` zeros to the complex counter, leaves every
other multiplicity unchanged, drives one of the two counts to zero, and is
idempotent: running the loop again on its own output changes nothing. -/
theorem claim_C3 (GR GC : List Qc) :
    (fuseLoop (fun y => GR.count y) (fun y => GC.count y)).1 czero
        = GR.count czero - min (GR.count czero) (GR.count cone) ∧
    (fuseLoop (fun y => GR.count y) (fun y => GC.count y)).1 cone
        = GR.count cone - min (GR.count czero) (GR.count cone) ∧
    (∀ x : Qc, x ≠ czero → x ≠ cone →
      (fuseLoop (fun y => GR.count y) (fun y => GC.count y)).1 x = GR.count x) ∧
    (fuseLoop (fun y => GR.count y) (fun y => GC.count y)).2 czero
        = GC.count czero + min (GR.count czero) (GR.count cone) ∧
    (∀ x : Qc, x ≠ czero →
      (fuseLoop (fun y => GR.count y) (fun y => GC.count y)).2 x = GC.count x) ∧
    min ((fuseLoop (fun y => GR.count y) (fun y => GC.count y)).1 czero)
        ((fuseLoop (fun y => GR.count y) (fun y => GC.count y)).1 cone) = 0 ∧
    fuseLoop (fuseLoop (fun y => GR.count y) (fun y => GC.count y)).1
        (fuseLoop (fun y => GR.count y) (fun y => GC.count y)).2
      = fuseLoop (fun y => GR.count y) (fun y => GC.count y) := by
  rw [fuseLoop_eq]
  dsimp only
  have e1 : (Function.update (Function.update (fun y => GR.count y) czero
      (GR.count czero - min (GR.count czero) (GR.count cone)))
      cone (GR.count cone - min (GR.count czero) (GR.count cone))) czero
      = GR.count czero - min (GR.count czero) (GR.count cone) := by
    rw [Function.update_noteq czero_ne_cone, Function.update_same]
  have e2 : (Function.update (Function.update (fun y => GR.count y) czero
      (GR.count czero - min (GR.count czero) (GR.count cone)))
      cone (GR.count cone - min (GR.count czero) (GR.count cone))) cone
      = GR.count cone - min (GR.count czero) (GR.count cone) :=
    Function.update_same _ _ _
  refine ⟨e1, e2, ?_, ?_, ?_, ?_, ?_⟩
  · intro x hxz hxc
    rw [Function.update_noteq hxc, Function.update_noteq hxz]
  · exact Function.update_same _ _ _
  · intro x hxz
    rw [Function.update_noteq hxz]
  · rw [e1, e2]; omega
  · rw [fuseLoop_eq]
    have hm : min (GR.count czero - min (GR.count czero) (GR.count cone))
        (GR.count cone - min (GR.count czero) (GR.count cone)) = 0 := by omega
    rw [e1, e2, hm]
    rw [Prod.mk.injEq]
    constructor
    · funext x
      rcases eq_or_ne x czero with hxz | hxz
      · subst hxz
        simp only [Function.update_apply, eq_self_iff_true, if_true,
          czero_ne_cone, Ne.symm czero_ne_cone, if_false]
        omega
      · rcases eq_or_ne x cone with hxc | hxc
        · subst hxc
          simp only [Function.update_apply, eq_self_iff_true, if_true,
            czero_ne_cone, Ne.symm czero_ne_cone, if_false]
          omega
        · simp only [Function.update_apply, if_neg hxz, if_neg hxc]
    · funext x
      rcases eq_or_ne x czero with hxz | hxz
      · subst hxz
        simp only [Function.update_apply, eq_self_iff_true, if_true,
          czero_ne_cone, Ne.symm czero_ne_cone, if_false]
        omega
      · simp only [Function.update_apply, if_neg hxz]

/-- Witness for C3 on the concrete lists `GR = [0, 0, 1]`, `GC = []`,
instantiating the untouched-multiplicity clauses at the parameter `(5, 5)`. -/
theorem claim_C3_witness :
    (fuseLoop (fun y => [czero, czero, cone].count y) (fun y => ([] : List Qc).count y)).1
      ((5 : ℚ), (5 : ℚ)) = [czero, czero, cone].count ((5 : ℚ), (5 : ℚ)) ∧
    (fuseLoop (fun y => [czero, czero, cone].count y) (fun y => ([] : List Qc).count y)).2
      ((5 : ℚ), (5 : ℚ)) = ([] : List Qc).count ((5 : ℚ), (5 : ℚ)) ∧
    min ((fuseLoop (fun y => [czero, czero, cone].count y)
          (fun y => ([] : List Qc).count y)).1 czero)
        ((fuseLoop (fun y => [czero, czero, cone].count y)
          (fun y => ([] : List Qc).count y)).1 cone) = 0 :=
  ⟨(claim_C3 [czero, czero, cone] []).2.2.1 _ (by decide) (by decide),
   (claim_C3 [czero, czero, cone] []).2.2.2.2.1 _ (by decide),
   (claim_C3 [czero, czero, cone] []).2.2.2.2.2.1⟩

lemma count_removeOcc_self (x : Qc) (k : ℕ) (l : List Qc) :
    (removeOcc x k l).count x = l.count x - k := by
  induction l generalizing k with
  | nil => cases k <;> simp [removeOcc]
  | cons y t ih =>
    cases k with
    | zero => simp [removeOcc]
    | succ m =>
      by_cases hy : y = x
      · subst hy
        simp [removeOcc, ih, List.count_cons]
      · simp [removeOcc, hy, ih, List.count_cons, Ne.symm hy]

lemma count_removeOcc_ne (x y : Qc) (hxy : y ≠ x) (k : ℕ) (l : List Qc) :
    (removeOcc x k l).count y = l.count y := by
  induction l generalizing k with
  | nil => cases k <;> simp [removeOcc]
  | cons z t ih =>
    cases k with
    | zero => simp [removeOcc]
    | succ m =>
      by_cases hz : z = x
      · subst hz
        simp [removeOcc, ih, List.count_cons, hxy, Ne.symm hxy]
      · simp [removeOcc, hz, ih, List.count_cons]

lemma length_removeOcc (x : Qc) (k : ℕ) (l : List Qc) :
    (removeOcc x k l).length = l.length - min k (l.count x) := by
  induction l generalizing k with
  | nil => cases k <;> simp [removeOcc]
  | cons y t ih =>
    cases k with
    | zero => simp [removeOcc]
    | succ m =>
      have hcle : t.count x ≤ t.length := List.count_le_length _ _
      by_cases hy : y = x
      · subst hy
        simp [removeOcc, ih, List.count_cons, List.length_cons]
        omega
      · simp [removeOcc, hy, ih, List.count_cons, List.length_cons, Ne.symm hy]
        omega

lemma counts_add_le_length (a b : Qc) (hab : a ≠ b) (l : List Qc) :
    l.count a + l.count b ≤ l.length := by
  induction l with
  | nil => simp
  | cons c t ih =>
    by_cases hca : a = c
    · subst hca
      simp [List.count_cons, hab, Ne.symm hab]
      omega
    · by_cases hcb : b = c
      · subst hcb
        simp [List.count_cons, hca, Ne.symm hca]
        omega
      · simp [List.count_cons, hca, Ne.symm hca, hcb, Ne.symm hcb]
        omega

/-- The list rebuild of the fused real parameters realizes exactly the fusion
loop's final real counter (and likewise for the complex one): the embedding's
`fuseGR`/`fuseGC` are multiset-faithful to the source's counter loop. -/
lemma fuse_list_counts (GR GC : List Qc) (x : Qc) :
    (fuseGR GR).count x = (fuseLoop (fun y => GR.count y) (fun y => GC.count y)).1 x ∧
    (fuseGC GR GC).count x = (fuseLoop (fun y => GR.count y) (fun y => GC.count y)).2 x := by
  rw [fuseLoop_eq]
  dsimp only
  unfold fuseGR fuseGC fuseCount
  constructor
  · rcases eq_or_ne x czero with hxz | hxz
    · subst hxz
      rw [count_removeOcc_ne _ _ czero_ne_cone, count_removeOcc_self]
      rw [Function.update_noteq czero_ne_cone, Function.update_same]
    · rcases eq_or_ne x cone with hxc | hxc
      · subst hxc
        rw [count_removeOcc_self, count_removeOcc_ne _ _ (Ne.symm czero_ne_cone)]
        rw [Function.update_same]
      · rw [count_removeOcc_ne _ _ hxc, count_removeOcc_ne _ _ hxz]
        rw [Function.update_noteq hxc, Function.update_noteq hxz]
  · rcases eq_or_ne x czero with hxz | hxz
    · subst hxz
      rw [List.count_append, Function.update_same]
      simp [List.count_replicate]
    · rw [List.count_append, Function.update_noteq hxz]
      simp [List.count_replicate, hxz, Ne.symm hxz]

lemma tailAct_conj_imag_le (G : List Qc) (i : ℕ) (h : tailAct G i = .conjTok) :
    (G.getD i czero).2 ≤ 0 := by
  unfold tailAct at h
  split_ifs at h with h1 h2
  exact h1.1

lemma tailAct_conj_mem (G : List Qc) (i : ℕ) (h : tailAct G i = .conjTok) :
    i + 1 < G.length ∧ conjQ (G.getD i czero) = G.getD (i + 1) czero := by
  unfold tailAct at h
  split_ifs at h with h1 h2
  exact ⟨h1.2.1, h1.2.2⟩

lemma spectralStr_conj_some (x : ℚ) (h : x ≤ 0) : ∃ t, spectralStr x true = some t := by
  cases hc : spectralStr x true with
  | some t => exact ⟨t, rfl⟩
  | none =>
    exfalso
    unfold spectralStr at hc
    simp [h] at hc

lemma spectralStr_plain_some (x : ℚ) : ∃ t, spectralStr x false = some t := by
  cases hc : spectralStr x false with
  | some t => exact ⟨t, rfl⟩
  | none =>
    exfalso
    unfold spectralStr at hc
    by_cases hx : x < 0 <;> simp [hx] at hc

lemma tailStr_fold_some (G : List Qc) (l : List ℕ) : ∀ (s : String),
    ∃ t, (l.foldl (fun acc i =>
      acc.bind (fun s =>
        match tailAct G i with
        | .skipTok => some s
        | .conjTok => (spectralStr (G.getD i czero).2 true).map (fun t => s ++ t)
        | .plainTok => (spectralStr (G.getD i czero).2 false).map (fun t => s ++ t)))
      (some s)) = some t := by
  induction l with
  | nil => exact fun s => ⟨s, rfl⟩
  | cons i tl ih =>
    intro s
    rw [List.foldl_cons]
    cases hact : tailAct G i with
    | skipTok =>
      simpa only [Option.some_bind, hact] using ih s
    | conjTok =>
      obtain ⟨u, hu⟩ := spectralStr_conj_some _ (tailAct_conj_imag_le G i hact)
      simpa only [Option.some_bind, hact, hu, Option.map_some] using ih (s ++ u)
    | plainTok =>
      obtain ⟨u, hu⟩ := spectralStr_plain_some ((G.getD i czero).2)
      simpa only [Option.some_bind, hact, hu, Option.map_some] using ih (s ++ u)

lemma tailStrG_some (G : List Qc) : ∃ t, tailStrG G = some t :=
  tailStr_fold_some G (List.range G.length) ""

lemma makeLabel_deg_pass (L : LRecord)
    (hdeg : L.degree = ((fuseGR (normalizeG L.motivicWeight L.GR)).length : ℤ) +
      2 * ((fuseGC (normalizeG L.motivicWeight L.GR)
        (normalizeG L.motivicWeight L.GC)).length : ℤ)) :
    ∃ d, makeLabel L = .ok d := by
  obtain ⟨t1, ht1⟩ := tailStrG_some (sortG (fuseGR (normalizeG L.motivicWeight L.GR)))
  obtain ⟨t2, ht2⟩ := tailStrG_some
    (sortG (fuseGC (normalizeG L.motivicWeight L.GR) (normalizeG L.motivicWeight L.GC)))
  simp only [makeLabel]
  rw [if_neg (not_not_intro hdeg)]
  cases halg : L.algebraic with
  | true => exact ⟨_, rfl⟩
  | false =>
    rw [ht1, ht2]
    exact ⟨_, rfl⟩

lemma makeLabel_deg_fail (L : LRecord)
    (hdeg : L.degree ≠ ((fuseGR (normalizeG L.motivicWeight L.GR)).length : ℤ) +
      2 * ((fuseGC (normalizeG L.motivicWeight L.GR)
        (normalizeG L.motivicWeight L.GC)).length : ℤ)) :
    makeLabel L = .error .invariantViolation := by
  simp only [makeLabel]
  rw [if_pos hdeg]

lemma makeLabel_ok_iff (L : LRecord) :
    (∃ d, makeLabel L = .ok d) ↔
      L.degree = ((fuseGR (normalizeG L.motivicWeight L.GR)).length : ℤ) +
        2 * ((fuseGC (normalizeG L.motivicWeight L.GR)
          (normalizeG L.motivicWeight L.GC)).length : ℤ) := by
  constructor
  · intro hex
    by_contra hdeg
    obtain ⟨d, hd⟩ := hex
    rw [makeLabel_deg_fail L hdeg] at hd
    exact absurd hd (by simp)
  · exact makeLabel_deg_pass L

/-- Claim C2: after analytic normalization and R-to-C fusion, `make_label`
raises the fatal degree assertion exactly when the supplied degree differs
from `len(GR) + 2*len(GC)` of the fused lists; on a violation no label is
produced, and otherwise processing continues and produces a record. -/
theorem claim_C2 (L : LRecord) :
    (makeLabel L = .error .invariantViolation ↔
      L.degree ≠ ((fuseGR (normalizeG L.motivicWeight L.GR)).length : ℤ) +
        2 * ((fuseGC (normalizeG L.motivicWeight L.GR)
          (normalizeG L.motivicWeight L.GC)).length : ℤ)) ∧
    ((∃ d, makeLabel L = .ok d) ↔
      L.degree = ((fuseGR (normalizeG L.motivicWeight L.GR)).length : ℤ) +
        2 * ((fuseGC (normalizeG L.motivicWeight L.GR)
          (normalizeG L.motivicWeight L.GC)).length : ℤ)) := by
  by_cases hdeg : L.degree = ((fuseGR (normalizeG L.motivicWeight L.GR)).length : ℤ) +
      2 * ((fuseGC (normalizeG L.motivicWeight L.GR)
        (normalizeG L.motivicWeight L.GC)).length : ℤ)
  · obtain ⟨d, hd⟩ := makeLabel_deg_pass L hdeg
    refine ⟨⟨fun he => ?_, fun hne => absurd hdeg hne⟩,
      ⟨fun _ => hdeg, fun _ => ⟨d, hd⟩⟩⟩
    rw [hd] at he
    exact absurd he (by simp)
  · have herr := makeLabel_deg_fail L hdeg
    refine ⟨⟨fun _ => hdeg, fun _ => herr⟩, ⟨fun hex => ?_, fun h => absurd h hdeg⟩⟩
    obtain ⟨d, hd⟩ := hex
    rw [herr] at hd
    exact absurd hd (by simp)

/-- Claim C9: R-to-C fusion preserves `len(GR) + 2*len(GC)` (each step removes
two real parameters and adds one complex parameter), so the degree check
evaluated after fusion passes exactly when the original record satisfied
`degree == len(GR) + 2*len(GC)`. -/
theorem claim_C9 (L : LRecord) :
    (fuseGR (normalizeG L.motivicWeight L.GR)).length +
        2 * (fuseGC (normalizeG L.motivicWeight L.GR)
          (normalizeG L.motivicWeight L.GC)).length
      = L.GR.length + 2 * L.GC.length ∧
    ((∃ d, makeLabel L = .ok d) ↔
      L.degree = (L.GR.length : ℤ) + 2 * (L.GC.length : ℤ)) := by
  have hGlen : (normalizeG L.motivicWeight L.GR).length = L.GR.length := by
    simp [normalizeG]
  have hClen : (normalizeG L.motivicWeight L.GC).length = L.GC.length := by
    simp [normalizeG]
  have hcc : (normalizeG L.motivicWeight L.GR).count czero +
      (normalizeG L.motivicWeight L.GR).count cone ≤
      (normalizeG L.motivicWeight L.GR).length :=
    counts_add_le_length _ _ czero_ne_cone _
  have h1 : (fuseGR (normalizeG L.motivicWeight L.GR)).length =
      (normalizeG L.motivicWeight L.GR).length -
        2 * fuseCount (normalizeG L.motivicWeight L.GR) := by
    unfold fuseGR
    rw [length_removeOcc, length_removeOcc,
      count_removeOcc_ne czero cone (Ne.symm czero_ne_cone)]
    unfold fuseCount
    omega
  have h2 : (fuseGC (normalizeG L.motivicWeight L.GR)
      (normalizeG L.motivicWeight L.GC)).length =
      (normalizeG L.motivicWeight L.GC).length +
        fuseCount (normalizeG L.motivicWeight L.GR) := by
    simp [fuseGC]
  have hlen : (fuseGR (normalizeG L.motivicWeight L.GR)).length +
      2 * (fuseGC (normalizeG L.motivicWeight L.GR)
        (normalizeG L.motivicWeight L.GC)).length
      = L.GR.length + 2 * L.GC.length := by
    unfold fuseCount at h1 h2
    omega
  refine ⟨hlen, ?_⟩
  have hz : ((fuseGR (normalizeG L.motivicWeight L.GR)).length : ℤ) +
      2 * ((fuseGC (normalizeG L.motivicWeight L.GR)
        (normalizeG L.motivicWeight L.GC)).length : ℤ)
      = (L.GR.length : ℤ) + 2 * (L.GC.length : ℤ) := by
    exact_mod_cast congrArg (Nat.cast : ℕ → ℤ) hlen
  rw [← hz]
  exact makeLabel_ok_iff L

/-- Claim C10: the assertion inside `spectral_str` (`conjugate` requires
`x <= 0`) can never fail when called from `make_label`'s tail construction:
the conjugate flag is only set for elements whose imaginary part is `<= 0`,
that imaginary part is the argument passed, and consequently `make_label`
never aborts with the `spectral_str` assertion. -/
theorem claim_C10 (L : LRecord) (G : List Qc) (i : ℕ)
    (h : tailAct G i = TailAct.conjTok) :
    (G.getD i czero).2 ≤ 0 ∧
    (∃ t, spectralStr (G.getD i czero).2 true = some t) ∧
    makeLabel L ≠ Except.error LabelError.assertFailed := by
  refine ⟨tailAct_conj_imag_le G i h,
    spectralStr_conj_some _ (tailAct_conj_imag_le G i h), ?_⟩
  by_cases hdeg : L.degree = ((fuseGR (normalizeG L.motivicWeight L.GR)).length : ℤ) +
      2 * ((fuseGC (normalizeG L.motivicWeight L.GR)
        (normalizeG L.motivicWeight L.GC)).length : ℤ)
  · obtain ⟨d, hd⟩ := makeLabel_deg_pass L hdeg
    rw [hd]
    simp
  · rw [makeLabel_deg_fail L hdeg]
    simp

/-- Witness for C10 at a concrete conjugate pair and a concrete record. -/
theorem claim_C10_witness :
    (([((0 : ℚ), (-1 : ℚ)), ((0 : ℚ), (1 : ℚ))].getD 0 czero).2 ≤ 0 ∧
    (∃ t, spectralStr (([((0 : ℚ), (-1 : ℚ)), ((0 : ℚ), (1 : ℚ))].getD 0 czero)).2 true
      = some t) ∧
    makeLabel ⟨1, 11, "1.1", 1, true, [((0 : ℚ), (0 : ℚ))], []⟩ ≠
      Except.error LabelError.assertFailed) :=
  claim_C10 ⟨1, 11, "1.1", 1, true, [((0 : ℚ), (0 : ℚ))], []⟩
    [((0 : ℚ), (-1 : ℚ)), ((0 : ℚ), (1 : ℚ))] 0 (by with_unfolding_all decide)

lemma filterMap_length_add_filter_length {α β : Type} (f : α → Option β) (p : α → Bool)
    (h : ∀ a, (f a).isSome = !(p a)) (l : List α) :
    (l.filterMap f).length + (l.filter p).length = l.length := by
  induction l with
  | nil => rfl
  | cons a t ih =>
    have ha := h a
    cases hf : f a with
    | none =>
      rw [hf] at ha
      have hp : p a = true := by simpa using ha.symm
      simp only [List.filterMap_cons, hf, List.filter_cons, hp, if_true,
        List.length_cons]
      omega
    | some b =>
      rw [hf] at ha
      have hp : p a = false := by simpa using ha.symm
      simp only [List.filterMap_cons, hf, List.filter_cons, hp, if_false,
        Bool.false_eq_true, List.length_cons]
      omega

lemma tail_balance (G : List Qc) : (tailTokens G).length + skippedCount G = G.length := by
  unfold tailTokens skippedCount
  have hfp : ∀ i : ℕ,
      ((match tailAct G i with
        | TailAct.skipTok => none
        | TailAct.conjTok => spectralStr (G.getD i czero).2 true
        | TailAct.plainTok => spectralStr (G.getD i czero).2 false) : Option String).isSome
      = !(tailAct G i == TailAct.skipTok) := by
    intro i
    cases hact : tailAct G i with
    | skipTok => simp only [hact]; rfl
    | conjTok =>
      obtain ⟨u, hu⟩ := spectralStr_conj_some _ (tailAct_conj_imag_le G i hact)
      simp only [hact]
      rw [hu]
      rfl
    | plainTok =>
      obtain ⟨u, hu⟩ := spectralStr_plain_some ((G.getD i czero).2)
      simp only [hact]
      rw [hu]
      rfl
  simpa only [List.length_range] using
    filterMap_length_add_filter_length _ _ hfp (List.range G.length)

lemma tail_skip_partner (G : List Qc) (i : ℕ) (hi : i < G.length)
    (h : tailAct G i = TailAct.skipTok) :
    0 < i ∧ tailAct G (i - 1) = TailAct.conjTok := by
  have hcond : 0 ≤ (G.getD i czero).2 ∧ 0 < i ∧
      conjQ (G.getD i czero) = G.getD (i - 1) czero := by
    unfold tailAct at h
    split_ifs at h with h1 h2
    exact h2
  have h0i : 0 < i := hcond.2.1
  have himag : (G.getD (i - 1) czero).2 ≤ 0 := by
    rw [← hcond.2.2]
    show -(G.getD i czero).2 ≤ 0
    linarith [hcond.1]
  have hidx : i - 1 + 1 = i := by omega
  have hconj2 : conjQ (G.getD (i - 1) czero) = G.getD (i - 1 + 1) czero := by
    rw [← hcond.2.2, hidx]
    show conjQ (conjQ _) = _
    simp [conjQ]
  refine ⟨h0i, ?_⟩
  unfold tailAct
  rw [if_pos ⟨himag, by omega, hconj2⟩]

/-- Claim C4: in the tail segment, every emitted spectral token corresponds to
exactly one index of the sorted lists and every skipped index has a distinct
partner (its predecessor) that was emitted as a conjugate token: the number of
emitted tokens plus the number of skipped indices is `len(GR) + len(GC)`, and
the partner map is injective. -/
theorem claim_C4 (GR GC : List Qc) :
    ((tailTokens GR).length + (tailTokens GC).length) +
        (skippedCount GR + skippedCount GC) = GR.length + GC.length ∧
    (∀ i, i < GR.length → tailAct GR i = TailAct.skipTok →
      0 < i ∧ tailAct GR (i - 1) = TailAct.conjTok) ∧
    (∀ i, i < GC.length → tailAct GC i = TailAct.skipTok →
      0 < i ∧ tailAct GC (i - 1) = TailAct.conjTok) ∧
    (∀ i j, i < GR.length → j < GR.length → tailAct GR i = TailAct.skipTok →
      tailAct GR j = TailAct.skipTok → i ≠ j → i - 1 ≠ j - 1) ∧
    (∀ i j, i < GC.length → j < GC.length → tailAct GC i = TailAct.skipTok →
      tailAct GC j = TailAct.skipTok → i ≠ j → i - 1 ≠ j - 1) := by
  refine ⟨?_, fun i hi h => tail_skip_partner GR i hi h,
    fun i hi h => tail_skip_partner GC i hi h, ?_, ?_⟩
  · have h1 := tail_balance GR
    have h2 := tail_balance GC
    omega
  · intro i j hi hj hski hskj hne
    have hpi := (tail_skip_partner GR i hi hski).1
    have hpj := (tail_skip_partner GR j hj hskj).1
    omega
  · intro i j hi hj hski hskj hne
    have hpi := (tail_skip_partner GC i hi hski).1
    have hpj := (tail_skip_partner GC j hj hskj).1
    omega

/-- Witness for C4 on the concrete conjugate pair `GC = [(0, -2), (0, 2)]`:
index 1 is skipped and its partner, index 0, is emitted as a conjugate
token. -/
theorem claim_C4_witness :
    0 < 1 ∧ tailAct [((0 : ℚ), (-2 : ℚ)), ((0 : ℚ), (2 : ℚ))] (1 - 1)
      = TailAct.conjTok :=
  (claim_C4 [] [((0 : ℚ), (-2 : ℚ)), ((0 : ℚ), (2 : ℚ))]).2.2.1 1
    (by decide) (by with_unfolding_all decide)

lemma gcdList_dvd (ns : List ℕ) : ∀ x ∈ ns, gcdList ns ∣ x := by
  induction ns with
  | nil => simp
  | cons n t ih =>
    intro x hx
    rcases List.mem_cons.mp hx with h | h
    · subst h
      exact Nat.gcd_dvd_left _ _
    · exact dvd_trans (Nat.gcd_dvd_right _ _) (ih x h)

lemma geOf_dvd_count_left (l1 l2 : List ℚ) (x : ℚ) (hx : x ∈ l1) :
    geOf l1 l2 ∣ l1.count x := by
  have hmem : l1.count x ∈ countsOf l1 :=
    List.mem_map.mpr ⟨x, List.mem_dedup.mpr hx, rfl⟩
  exact dvd_trans (Nat.gcd_dvd_left _ _) (gcdList_dvd _ _ hmem)

lemma geOf_dvd_count_right (l1 l2 : List ℚ) (x : ℚ) (hx : x ∈ l2) :
    geOf l1 l2 ∣ l2.count x := by
  have hmem : l2.count x ∈ countsOf l2 :=
    List.mem_map.mpr ⟨x, List.mem_dedup.mpr hx, rfl⟩
  exact dvd_trans (Nat.gcd_dvd_right _ _) (gcdList_dvd _ _ hmem)

lemma count_bind_replicate (f : ℚ → ℕ) (x : ℚ) :
    ∀ (ks : List ℚ), ks.Nodup →
      (ks.bind (fun k => List.replicate (f k) k)).count x = if x ∈ ks then f x else 0 := by
  intro ks
  induction ks with
  | nil => simp
  | cons k t ih =>
    intro hnd
    rcases List.nodup_cons.mp hnd with ⟨hk, ht⟩
    rw [show (k :: t).bind (fun k => List.replicate (f k) k)
        = List.replicate (f k) k ++ t.bind (fun k => List.replicate (f k) k) from rfl]
    rw [List.count_append, ih ht]
    by_cases hx : x = k
    · subst hx
      simp [List.count_replicate, hk]
    · simp [List.count_replicate, hx, Ne.symm hx, List.mem_cons]

lemma count_reduceBy (g : ℕ) (l : List ℚ) (x : ℚ) :
    (reduceBy g l).count x = l.count x / g := by
  unfold reduceBy
  rw [count_bind_replicate (fun k => l.count k / g) x l.dedup l.nodup_dedup]
  by_cases hx : x ∈ l
  · simp [List.mem_dedup, hx]
  · simp only [List.mem_dedup, hx, if_false]
    rw [List.count_eq_zero_of_not_mem hx, Nat.zero_div]

/-- Claim C7: with `ge` the gcd of all multiplicities of distinct real parts
within GR and within GC, whenever `ge > 1` the block-factor reduction keeps
`count / ge` copies of each distinct value, and repeating the reduced
multiset `ge` times reproduces the original real-part multiset, for GR and GC
independently. -/
theorem claim_C7 (l1 l2 : List ℚ) (h : 1 < geOf l1 l2) :
    (∀ x : ℚ, (reduceBy (geOf l1 l2) l1).count x = l1.count x / geOf l1 l2) ∧
    (∀ x : ℚ, (reduceBy (geOf l1 l2) l2).count x = l2.count x / geOf l1 l2) ∧
    geOf l1 l2 • ((reduceBy (geOf l1 l2) l1 : List ℚ) : Multiset ℚ) = (l1 : Multiset ℚ) ∧
    geOf l1 l2 • ((reduceBy (geOf l1 l2) l2 : List ℚ) : Multiset ℚ) = (l2 : Multiset ℚ) := by
  refine ⟨fun x => count_reduceBy _ _ _, fun x => count_reduceBy _ _ _, ?_, ?_⟩
  · rw [Multiset.ext]
    intro x
    rw [Multiset.count_nsmul, Multiset.coe_count, Multiset.coe_count, count_reduceBy]
    by_cases hx : x ∈ l1
    · exact Nat.mul_div_cancel' (geOf_dvd_count_left l1 l2 x hx)
    · rw [List.count_eq_zero_of_not_mem hx, Nat.zero_div, Nat.mul_zero]
  · rw [Multiset.ext]
    intro x
    rw [Multiset.count_nsmul, Multiset.coe_count, Multiset.coe_count, count_reduceBy]
    by_cases hx : x ∈ l2
    · exact Nat.mul_div_cancel' (geOf_dvd_count_right l1 l2 x hx)
    · rw [List.count_eq_zero_of_not_mem hx, Nat.zero_div, Nat.mul_zero]

/-- Witness for C7 on `l1 = [0, 0, 1, 1]`, `l2 = [5, 5]` where `ge = 2`. -/
theorem claim_C7_witness :
    (reduceBy (geOf [(0 : ℚ), 0, 1, 1] [(5 : ℚ), 5]) [(0 : ℚ), 0, 1, 1]).count 0
        = [(0 : ℚ), 0, 1, 1].count 0 / geOf [(0 : ℚ), 0, 1, 1] [(5 : ℚ), 5] ∧
    geOf [(0 : ℚ), 0, 1, 1] [(5 : ℚ), 5] •
        ((reduceBy (geOf [(0 : ℚ), 0, 1, 1] [(5 : ℚ), 5]) [(5 : ℚ), 5] : List ℚ) : Multiset ℚ)
      = ([(5 : ℚ), 5] : Multiset ℚ) :=
  ⟨(claim_C7 [(0 : ℚ), 0, 1, 1] [(5 : ℚ), 5] (by with_unfolding_all decide)).1 0,
   (claim_C7 [(0 : ℚ), 0, 1, 1] [(5 : ℚ), 5] (by with_unfolding_all decide)).2.2.2⟩

/-- Claim C8 (counterexample): on the record of the spec's first end-to-end
scenario — degree 2, conductor 11, central character `"1.1"`, algebraic,
motivic weight 1, gamma factors `[[0], []]` — `make_label` hits the degree
assertion (`2 ≠ len([0.5]) + 2*0 = 1`) and aborts, so the claimed prelabel
`"2-11-1.1-r0-0"` is never produced. -/
theorem claim_C8_counterexample :
    makeLabel ⟨2, 11, "1.1", 1, true, [((0 : ℚ), (0 : ℚ))], []⟩ =
      Except.error LabelError.invariantViolation := by
  with_unfolding_all decide

/-- Claim C8 (amended): on the same record with degree 1 — the only degree the
gamma data admits — label construction produces exactly the prelabel
`"1-11-1.1-r1-0"`: after the 0.5 shift `GR = [0.5]`, no fusion occurs, the
conductor segment is `"11"` (`e = 1`), the gamma segment is `"-r1"` (Sage's
`round()` takes 0.5 away from zero, to 1), and the algebraic tail is `"-0"`. -/
theorem claim_C8 :
    (makeLabel ⟨1, 11, "1.1", 1, true, [((0 : ℚ), (0 : ℚ))], []⟩).map LabelData.prelabel =
      Except.ok "1-11-1.1-r1-0" := by
  with_unfolding_all decide

lemma processCore_fst (r r2 : PRec) (d : LabelData)
    (h : processCore r = some (r2, d)) :
    r2 = { r with centralChar := primitivizeM r.centralChar } := by
  unfold processCore at h
  split at h
  · split at h
    · have hinj := Option.some.inj h
      exact (congrArg Prod.fst hinj).symm
    · exact absurd h (by simp)
  · exact absurd h (by simp)

set_option maxRecDepth 4000 in
/-- Claim C5 (counterexample): the source's `process_line` emits no record at
all (its `save` raises on the double-precision `root_angle` field), and even
with that branch repaired the output's `central_character` field is the
primitivized character, not the input text: on a valid record with central
character `"4.1"` the emitted fifth field is `"1.1"`. -/
theorem claim_C5_counterexample :
    processLine "1" "x" "t" "4" "4.1" "t" "0" "h" "3" "0" "t" "0.5"
      "[[0.5],[2.5]]" "2" "0.5" = none ∧
    ((processLineFixed "1" "x" "t" "4" "4.1" "t" "0" "h" "3" "0" "t" "0.5"
      "[[0.5],[2.5]]" "2" "0.5").bind (fun l => l.get? 4)) = some "1.1" ∧
    some "1.1" ≠ some "4.1" := by
  refine ⟨?_, ?_, ?_⟩ <;> with_unfolding_all decide

/-- Claim C5 (amended): for every successfully processed input line (under the
spec-modelled double-precision `save` branch, without which no line encodes),
the output has 22 fields; each of the leading 15 is the re-encoding of the
corresponding decoded input field, unchanged, except `central_character`
(field 4), which is replaced by its primitive form; the derived fields are
appended after them. -/
theorem claim_C5 (f0 f1 f2 f3 f4 f5 f6 f7 f8 f9 f10 f11 f12 f13 f14 : String)
    (out : List String)
    (h : processLineFixed f0 f1 f2 f3 f4 f5 f6 f7 f8 f9 f10 f11 f12 f13 f14
      = some out) :
    out.length = 22 ∧
    out.get? 0 = (parseIntS f0).map (fun z => toString z) ∧
    out.get? 1 = some f1 ∧
    out.get? 2 = some (saveBool (f2 == "t")) ∧
    out.get? 3 = (parseNatS f3).map (fun n => toString n) ∧
    out.get? 4 = some (primitivizeM f4) ∧
    out.get? 5 = some (saveBool (f5 == "t")) ∧
    out.get? 6 = (parseIntS f6).map (fun z => toString z) ∧
    out.get? 7 = some f7 ∧
    out.get? 8 = (parseIntS f8).map (fun z => toString z) ∧
    out.get? 9 = (parseIntS f9).map (fun z => toString z) ∧
    out.get? 10 = some (saveBool (f10 == "t")) ∧
    out.get? 11 = parseRealLit f11 ∧
    out.get? 12 = (loadGamma f12).map renderGamma ∧
    out.get? 13 = (parseIntS f13).map (fun z => toString z) ∧
    out.get? 14 = parseRealLit f14 := by
  unfold processLineFixed at h
  cases hr : loadRec f0 f1 f2 f3 f4 f5 f6 f7 f8 f9 f10 f11 f12 f13 f14 with
  | none => rw [hr] at h; exact absurd h (by simp)
  | some r =>
    rw [hr, Option.some_bind] at h
    cases hc : processCore r with
    | none => rw [hc] at h; exact absurd h (by simp)
    | some pd =>
      obtain ⟨r2, d⟩ := pd
      rw [hc, Option.some_bind] at h
      have hr2 := processCore_fst r r2 d hc
      subst hr2
      unfold saveLineWith saveDoubleFixed at h
      rw [Option.some_bind, Option.some_bind] at h
      have hout := (Option.some.inj h).symm
      subst hout
      unfold loadRec at hr
      cases h0 : parseIntS f0 with
      | none => rw [h0] at hr; exact absurd hr (by simp)
      | some a0 =>
      rw [h0, Option.some_bind] at hr
      cases h3 : parseNatS f3 with
      | none => rw [h3] at hr; exact absurd hr (by simp)
      | some a3 =>
      rw [h3, Option.some_bind] at hr
      cases h6 : parseIntS f6 with
      | none => rw [h6] at hr; exact absurd hr (by simp)
      | some a6 =>
      rw [h6, Option.some_bind] at hr
      cases h8 : parseIntS f8 with
      | none => rw [h8] at hr; exact absurd hr (by simp)
      | some a8 =>
      rw [h8, Option.some_bind] at hr
      cases h9 : parseIntS f9 with
      | none => rw [h9] at hr; exact absurd hr (by simp)
      | some a9 =>
      rw [h9, Option.some_bind] at hr
      cases h11 : parseRealLit f11 with
      | none => rw [h11] at hr; exact absurd hr (by simp)
      | some a11 =>
      rw [h11, Option.some_bind] at hr
      cases h12 : loadGamma f12 with
      | none => rw [h12] at hr; exact absurd hr (by simp)
      | some a12 =>
      rw [h12, Option.some_bind] at hr
      cases h13 : parseIntS f13 with
      | none => rw [h13] at hr; exact absurd hr (by simp)
      | some a13 =>
      rw [h13, Option.some_bind] at hr
      cases h14 : parseRealLit f14 with
      | none => rw [h14] at hr; exact absurd hr (by simp)
      | some a14 =>
      rw [h14, Option.some_bind] at hr
      have hrv := Option.some.inj hr
      subst hrv
      exact ⟨rfl, rfl, rfl, rfl, rfl, rfl, rfl, rfl, rfl, rfl, rfl, rfl, rfl,
        rfl, rfl, rfl⟩

set_option maxRecDepth 4000 in
/-- Witness for C5 at a concrete successfully processed line. -/
theorem claim_C5_witness :
    ((processLineFixed "1" "x" "t" "4" "4.1" "t" "0" "h" "3" "0" "t" "0.5"
        "[[0.5],[2.5]]" "2" "0.5").getD []).length = 22 ∧
    ((processLineFixed "1" "x" "t" "4" "4.1" "t" "0" "h" "3" "0" "t" "0.5"
        "[[0.5],[2.5]]" "2" "0.5").getD []).get? 4 = some (primitivizeM "4.1") := by
  have h : processLineFixed "1" "x" "t" "4" "4.1" "t" "0" "h" "3" "0" "t" "0.5"
      "[[0.5],[2.5]]" "2" "0.5"
      = some ((processLineFixed "1" "x" "t" "4" "4.1" "t" "0" "h" "3" "0" "t" "0.5"
        "[[0.5],[2.5]]" "2" "0.5").getD []) := by
    with_unfolding_all decide
  have hc := claim_C5 "1" "x" "t" "4" "4.1" "t" "0" "h" "3" "0" "t" "0.5"
    "[[0.5],[2.5]]" "2" "0.5" _ h
  exact ⟨hc.1, hc.2.2.2.2.2.1⟩

/-- Witness for C2: a record whose degree matches the fused gamma data is
processed to completion. -/
theorem claim_C2_witness :
    ∃ d, makeLabel ⟨1, 11, "1.1", 1, true, [((0 : ℚ), (0 : ℚ))], []⟩ = Except.ok d :=
  (claim_C2 ⟨1, 11, "1.1", 1, true, [((0 : ℚ), (0 : ℚ))], []⟩).2.mpr
    (by with_unfolding_all decide)

/-- Witness for C9 on the spec's third scenario: `GR = [0, 1]`, weight 0 —
fusion turns the pair into one complex 0 and the degree check accepts
degree 2, the original `len(GR) + 2*len(GC)`. -/
theorem claim_C9_witness :
    ∃ d, makeLabel ⟨2, 8, "1.1", 0, true, [czero, cone], []⟩ = Except.ok d :=
  (claim_C9 ⟨2, 8, "1.1", 0, true, [czero, cone], []⟩).2.mpr
    (by with_unfolding_all decide)

example : condSeg 8 = "2e3" := by decide
example : condSeg 11 = "11" := by decide
example :
    (makeLabel ⟨2, 8, "1.1", 0, true, [czero, cone], []⟩).map LabelData.prelabel =
      Except.ok "2-2e3-1.1-c0-0" := by
  with_unfolding_all decide
example :
    (makeLabel ⟨4, 1, "1.1", 0, false, [],
        [((1 / 2 : ℚ), (-2 : ℚ)), ((1 / 2 : ℚ), (2 : ℚ))]⟩).map LabelData.prelabel =
      Except.ok "4-1-1.1-c1e2-c2.00" := by
  with_unfolding_all decide

example : matchCC "2i" = some (none, some "2") := by decide
example : matchCC "12i" = some (none, some "12") := by decide
example : matchCC "1e2" = some (some "1e2", none) := by decide
example : matchCC "1ei" = none := by decide
example : matchCC ".5" = some (some ".5", none) := by decide
example : matchCC "5." = some (some "5.", none) := by decide
example : matchCC "-.5" = some (some "-.5", none) := by decide
example : matchCC "1.2e-3" = some (some "1.2e-3", none) := by decide
example : matchCC "1E5" = some (some "1E5", none) := by decide
example : matchCC "2.5 - 3.1i" = some (some "2.5", some "- 3.1") := by decide
example : matchCC "2.5-3.1*I" = some (some "2.5", some "-3.1") := by decide
example : matchCC "2.5 " = some (some "2.5", none) := by decide
example : matchCC " 2.5" = none := by decide
example : matchCC "1+1" = none := by decide
example : matchCC "1.2.3" = none := by decide
example : matchCC "2.5-i" = some (some "2.5", some "-") := by decide
example : matchCC "2.5-.5i" = some (some "2.5", some "-.5") := by decide
example : matchCC "1 * i" = some (some "1", some "") := by decide
example : matchCC "*i" = none := by decide
example : matchCC "1*I" = some (some "1", some "") := by decide
example : matchCC "-2.5-3.1e2i" = some (some "-2.5", some "-3.1e2") := by decide

example : valS ".5" = 1 / 2 := by with_unfolding_all decide
example : valS "5." = 5 := by with_unfolding_all decide
example : valS "-3.1" = -(31 / 10) := by with_unfolding_all decide
example : roundQ (1 / 2) = 1 := by with_unfolding_all decide
example : roundQ (-(1 / 2)) = -1 := by with_unfolding_all decide
example : roundQ (3 / 10) = 0 := by with_unfolding_all decide
example : spectralStr (-(5 / 2)) false = some "m2.50" := by with_unfolding_all decide
example : spectralStr 0 true = some "c0" := by with_unfolding_all decide
example : perfectPower 16 = (2, 4) := by decide
